import Mathlib

/-!
Verification of the coverage metrics module (metrics.py) of the
coverage-at-k repository.

Modelling conventions: a Python dict or Counter is represented by the list
of its values, one entry per key, so that the length of the list is the
number of keys; Python floats are represented by rationals; the Python
assert in coverage_at_q is represented by an Option result, where none
stands for the AssertionError and some r for a normal return of r.
-/

/-- Embedding of coverage_at_k: the proportion of the total_possible
categories whose count is strictly greater than k, and 0.0 when the
category universe is empty. -/
def coverage_at_k (counts : List ℚ) (k : ℚ) (total_possible : ℕ) : ℚ :=
  if total_possible = 0 then 0
  else (counts.countP (fun v => decide (k < v)) : ℚ) / (total_possible : ℚ)

/-- The even point computed inside auc_catk:
floor(total_items / num_observed_categories). -/
def even_point (counts : List ℚ) : ℤ :=
  Int.floor (counts.sum / (counts.length : ℚ))

/-- Embedding of auc_catk: normalized area under the coverage_at_k curve
up to the even point, with the ideal area scaled by the ratio of observed
to possible categories, exactly as in the source. -/
def auc_catk (counts : List ℚ) (total_possible : ℕ) : ℚ :=
  if total_possible = 0 then 0
  else if counts = [] then 0
  else if counts.length = 0 then 0
  else if even_point counts ≤ 0 then 0
  else
    let observed_area :=
      ((List.range (even_point counts).toNat).map
        (fun k : ℕ => coverage_at_k counts (k : ℚ) total_possible)).sum
    let ideal_area :=
      ((even_point counts : ℤ) : ℚ) * ((counts.length : ℚ) / (total_possible : ℚ))
    if ideal_area = 0 then 0 else observed_area / ideal_area

/-- Embedding of coverage_at_q: 0.0 on the empty map; otherwise, when q is
in [0,1], the proportion of categories whose probability is greater than
or equal to q; none models the failed assert when q is outside [0,1]. -/
def coverage_at_q (probs : List ℚ) (q : ℚ) : Option ℚ :=
  if probs = [] then some 0
  else if 0 ≤ q ∧ q ≤ 1 then
    some ((probs.countP (fun v => decide (q ≤ v)) : ℚ) / (probs.length : ℚ))
  else none

/-- The sorted deduplicated breakpoint list built by deviation_from_uniform
from 0.0, 1.0, the uniform probability, and the observed values. -/
def breakpoints (probs : List ℚ) : List ℚ :=
  List.insertionSort (fun a b => a ≤ b)
    (((0 : ℚ) :: 1 :: (1 / (probs.length : ℚ)) :: probs).dedup)

/-- One iteration of the loop of deviation_from_uniform: the contribution
of the interval from q_start to q_end (skipped when its width is zero);
none propagates a failed assert inside coverage_at_q. -/
def segment_area (probs : List ℚ) (p_uniform q_start q_end : ℚ) : Option ℚ :=
  if q_end - q_start = 0 then some 0
  else
    (coverage_at_q probs q_end).map (fun coverage =>
      if q_end ≤ p_uniform then (1 - coverage) * (q_end - q_start)
      else coverage * (q_end - q_start))

/-- The accumulation loop of deviation_from_uniform over consecutive pairs
of breakpoints. -/
def raw_area (probs : List ℚ) (p_uniform : ℚ) : List ℚ → Option ℚ
  | [] => some 0
  | [_] => some 0
  | a :: b :: rest => do
      let s ← segment_area probs p_uniform a b
      let r ← raw_area probs p_uniform (b :: rest)
      pure (s + r)

/-- Embedding of deviation_from_uniform: piecewise-constant integration of
the coverage-at-q curve against the uniform baseline, normalized so that a
one-hot distribution scores 1. -/
def deviation_from_uniform (probs : List ℚ) : Option ℚ :=
  if probs = [] then some 0
  else if probs.length ≤ 1 then some 0
  else
    let n := probs.length
    let p_uniform := 1 / (n : ℚ)
    (raw_area probs p_uniform (breakpoints probs)).map
      (fun raw => ((n : ℚ) ^ 2 / (2 * ((n : ℚ) - 1))) * raw)

/-- Embedding of uniform_divergence_score, the alias of
deviation_from_uniform. -/
def uniform_divergence_score (probs : List ℚ) : Option ℚ :=
  deviation_from_uniform probs

/-! ## General helper lemmas -/

/-- On a non-empty map with q in range, coverage_at_q returns the count of
values at least q over the number of categories. -/
lemma coverage_at_q_eq_of_nonempty (probs : List ℚ) (q : ℚ) (hne : probs ≠ [])
    (h0 : 0 ≤ q) (h1 : q ≤ 1) :
    coverage_at_q probs q =
      some ((probs.countP (fun v => decide (q ≤ v)) : ℚ) / (probs.length : ℚ)) := by
  rw [coverage_at_q, if_neg hne, if_pos ⟨h0, h1⟩]

/-- coverage_at_k is never negative. -/
lemma coverage_at_k_nonneg (counts : List ℚ) (k : ℚ) (total_possible : ℕ) :
    0 ≤ coverage_at_k counts k total_possible := by
  rw [coverage_at_k]
  split
  · exact le_refl 0
  · exact div_nonneg (Nat.cast_nonneg _) (Nat.cast_nonneg _)

/-- coverage_at_k is at most the number of observed categories over the
size of the category universe. -/
lemma coverage_at_k_le (counts : List ℚ) (k : ℚ) (total_possible : ℕ) :
    coverage_at_k counts k total_possible ≤
      (counts.length : ℚ) / (total_possible : ℚ) := by
  rw [coverage_at_k]
  split
  · exact div_nonneg (Nat.cast_nonneg _) (Nat.cast_nonneg _)
  · refine div_le_div_of_nonneg_right ?_ (Nat.cast_nonneg _)
    exact_mod_cast List.countP_le_length _

/-! ## C1 -/

/-- C1 (counterexample): contrary to the claim that coverage_at_q counts
categories with probability strictly greater than q, on the uniform
4-category map at q = 1/4 the source returns 1.0, not the claimed 0.0,
because the comparison in the source is greater-or-equal. -/
theorem C1_counterexample :
    coverage_at_q [1/4, 1/4, 1/4, 1/4] (1/4) = some 1 ∧
    some (1 : ℚ) ≠ some (0 : ℚ) := by
  constructor
  · norm_num [coverage_at_q, List.countP, List.countP.go, List.cons_ne_nil]
  · simp

/-- C1 (amended): for every non-empty probs and q in [0,1], coverage_at_q
returns the fraction of categories whose probability is greater than OR
EQUAL to q; in particular on the uniform 4-category map it returns 1.0 at
q = 1/4 and 1.0 at q = 0. -/
theorem C1_coverage_at_q_ge (probs : List ℚ) (q : ℚ) (hne : probs ≠ [])
    (h0 : 0 ≤ q) (h1 : q ≤ 1) :
    coverage_at_q probs q =
      some (((probs.filter (fun v => decide (q ≤ v))).length : ℚ) /
        (probs.length : ℚ)) ∧
    coverage_at_q [1/4, 1/4, 1/4, 1/4] (1/4) = some 1 ∧
    coverage_at_q [1/4, 1/4, 1/4, 1/4] 0 = some 1 := by
  refine ⟨?_, ?_, ?_⟩
  · rw [coverage_at_q_eq_of_nonempty probs q hne h0 h1,
      List.countP_eq_length_filter]
  · norm_num [coverage_at_q, List.countP, List.countP.go, List.cons_ne_nil]
  · norm_num [coverage_at_q, List.countP, List.countP.go, List.cons_ne_nil]

/-- C1 (witness): the amended statement instantiated on a concrete
two-category map at q = 1/2. -/
theorem C1_witness :
    coverage_at_q [1/2, 1/4] (1/2) =
      some ((((List.filter (fun v => decide ((1/2 : ℚ) ≤ v)) [1/2, 1/4]).length : ℕ) : ℚ) /
        (([1/2, 1/4] : List ℚ).length : ℚ)) :=
  (C1_coverage_at_q_ge [1/2, 1/4] (1/2) (by simp) (by norm_num) (by norm_num)).1

/-! ## C3 -/

/-- C3 (counterexample): contrary to the claim that the contract check
fires for every probs map including the empty one, the source returns 0.0
on the empty map even for q outside [0,1], because the empty check comes
first. -/
theorem C3_counterexample :
    coverage_at_q [] 2 = some 0 ∧ coverage_at_q [] (-1) = some 0 :=
  ⟨rfl, rfl⟩

/-- C3 (amended): for every NON-EMPTY probs and q outside [0,1],
coverage_at_q fails the assert instead of returning a number. -/
theorem C3_invalid_q (probs : List ℚ) (q : ℚ) (hne : probs ≠ [])
    (hq : q < 0 ∨ 1 < q) :
    coverage_at_q probs q = none := by
  rw [coverage_at_q, if_neg hne, if_neg]
  rintro ⟨h0, h1⟩
  rcases hq with h | h
  · exact absurd h (not_lt.mpr h0)
  · exact absurd h (not_lt.mpr h1)

/-- C3 (witness): the assert fires on a concrete one-category map at
q = 2. -/
theorem C3_witness : coverage_at_q [1/2] 2 = none :=
  C3_invalid_q [1/2] 2 (by simp) (Or.inr (by norm_num))

/-! ## C4 -/

/-- C4: for every counts map, threshold k and positive total_possible,
coverage_at_k returns the number of categories whose count strictly
exceeds k, divided by total_possible. -/
theorem C4_coverage_at_k_strict (counts : List ℚ) (k : ℚ) (total_possible : ℕ)
    (hpos : 0 < total_possible) :
    coverage_at_k counts k total_possible =
      (((counts.filter (fun v => decide (k < v))).length : ℕ) : ℚ) /
        (total_possible : ℚ) := by
  rw [coverage_at_k, if_neg (Nat.pos_iff_ne_zero.mp hpos),
    List.countP_eq_length_filter]

/-- C4 (witness): the strict comparison on a concrete map, where the
category with count exactly equal to k is excluded. -/
theorem C4_witness :
    coverage_at_k [2, 3] 2 4 =
      (((List.filter (fun v => decide ((2 : ℚ) < v)) [2, 3]).length : ℕ) : ℚ) / 4 :=
  C4_coverage_at_k_strict [2, 3] 2 4 (by norm_num)

/-! ## C5 -/

/-- C5: deviation_from_uniform returns exactly 0 on the uniform
4-category distribution and exactly 1 on the one-hot 4-category
distribution. -/
theorem C5_deviation_examples :
    deviation_from_uniform [1/4, 1/4, 1/4, 1/4] = some 0 ∧
    deviation_from_uniform [1, 0, 0, 0] = some 1 := by
  constructor
  · have hbp : breakpoints [1/4, 1/4, 1/4, 1/4] = [0, 1/4, 1] := by
      norm_num [breakpoints, List.dedup_cons_of_mem, List.dedup_cons_of_not_mem,
        List.insertionSort, List.orderedInsert]
    rw [deviation_from_uniform]
    norm_num [hbp, raw_area, segment_area, coverage_at_q, List.countP,
      List.countP.go, List.cons_ne_nil]
  · have hbp : breakpoints [1, 0, 0, 0] = [0, 1/4, 1] := by
      norm_num [breakpoints, List.dedup_cons_of_mem, List.dedup_cons_of_not_mem,
        List.insertionSort, List.orderedInsert]
    rw [deviation_from_uniform]
    norm_num [hbp, raw_area, segment_area, coverage_at_q, List.countP,
      List.countP.go, List.cons_ne_nil]

/-! ## C9 -/

/-- C9: on the empty map coverage_at_q returns 0.0 for every q, even
outside [0,1], because the empty check precedes the range assert. -/
theorem C9_empty_first (q : ℚ) : coverage_at_q [] q = some 0 := rfl

/-! ## C2 -/

/-- C2 (counterexample): contrary to the claim that the denominator is the
even point alone, on the map with a single category of count 2 and a
universe of 2 categories the source returns 1.0, while the claimed
formula observed_area / even_point gives 1/2: the source scales the ideal
area by the ratio of observed to possible categories. -/
theorem C2_counterexample :
    auc_catk [2] 2 = 1 ∧
    even_point [2] = 2 ∧
    (coverage_at_k [2] 0 2 + coverage_at_k [2] 1 2) / (2 : ℚ) = 1/2 ∧
    (1 : ℚ) ≠ 1/2 := by
  refine ⟨?_, ?_, ?_, by norm_num⟩
  · have hep : even_point [2] = 2 := by norm_num [even_point]
    have h2 : ((2 : ℤ)).toNat = 2 := rfl
    rw [auc_catk]
    simp only [hep, h2]
    norm_num [coverage_at_k, List.range_succ, List.countP, List.countP.go,
      List.cons_ne_nil]
  · norm_num [even_point]
  · norm_num [coverage_at_k, List.countP, List.countP.go]

/-- C2 (amended): for every non-empty counts with positive total_possible
and positive even point, auc_catk returns the observed area divided by
even_point scaled by the ratio of observed categories to total_possible,
not by even_point alone. -/
theorem C2_auc_catk_scaled (counts : List ℚ) (total_possible : ℕ)
    (hne : counts ≠ []) (hT : 0 < total_possible)
    (hep : 0 < even_point counts) :
    auc_catk counts total_possible =
      ((List.range (even_point counts).toNat).map
        (fun k : ℕ => coverage_at_k counts (k : ℚ) total_possible)).sum /
      (((even_point counts : ℤ) : ℚ) *
        ((counts.length : ℚ) / (total_possible : ℚ))) := by
  have hT' : total_possible ≠ 0 := Nat.pos_iff_ne_zero.mp hT
  have hlen : counts.length ≠ 0 := fun h => hne (List.length_eq_zero.mp h)
  have hep' : ¬ even_point counts ≤ 0 := not_le.mpr hep
  have hideal : (((even_point counts : ℤ) : ℚ) *
      ((counts.length : ℚ) / (total_possible : ℚ))) ≠ 0 := by
    have h1 : (0 : ℚ) < ((even_point counts : ℤ) : ℚ) := by exact_mod_cast hep
    have h2 : (0 : ℚ) < (counts.length : ℚ) := by
      exact_mod_cast Nat.pos_of_ne_zero hlen
    have h3 : (0 : ℚ) < (total_possible : ℚ) := by exact_mod_cast hT
    exact ne_of_gt (mul_pos h1 (div_pos h2 h3))
  simp only [auc_catk, if_neg hT', if_neg hne, if_neg hlen, if_neg hep',
    if_neg hideal]

/-- C2 (witness): the amended formula instantiated on the counterexample
input. -/
theorem C2_witness :
    auc_catk [2] 2 =
      ((List.range (even_point [2]).toNat).map
        (fun k : ℕ => coverage_at_k [2] (k : ℚ) 2)).sum /
      (((even_point [2] : ℤ) : ℚ) * ((([2] : List ℚ).length : ℚ) / ((2 : ℕ) : ℚ))) :=
  C2_auc_catk_scaled [2] 2 (by simp) (by norm_num) (by norm_num [even_point])

/-! ## C6 -/

/-- auc_catk is never negative. -/
lemma auc_catk_nonneg (counts : List ℚ) (total_possible : ℕ) :
    0 ≤ auc_catk counts total_possible := by
  simp only [auc_catk]
  split_ifs with h1 h2 h3 h4 h5
  · exact le_refl 0
  · exact le_refl 0
  · exact le_refl 0
  · exact le_refl 0
  · exact le_refl 0
  · refine div_nonneg ?_ ?_
    · refine List.sum_nonneg ?_
      intro x hx
      obtain ⟨k, _, hk⟩ := List.mem_map.mp hx
      rw [← hk]
      exact coverage_at_k_nonneg counts (k : ℚ) total_possible
    · refine mul_nonneg ?_ (div_nonneg (Nat.cast_nonneg _) (Nat.cast_nonneg _))
      have : (0 : ℤ) < even_point counts := lt_of_not_le h4
      exact_mod_cast this.le

/-- auc_catk never exceeds 1: each step of the observed area contributes
at most the ratio of observed categories to total_possible, which is
exactly what one step of the ideal area contributes. -/
lemma auc_catk_le_one (counts : List ℚ) (total_possible : ℕ) :
    auc_catk counts total_possible ≤ 1 := by
  simp only [auc_catk]
  split_ifs with h1 h2 h3 h4 h5
  · exact zero_le_one
  · exact zero_le_one
  · exact zero_le_one
  · exact zero_le_one
  · exact zero_le_one
  · have hepz : (0 : ℤ) < even_point counts := lt_of_not_le h4
    have hcast : (((even_point counts).toNat : ℕ) : ℚ) =
        ((even_point counts : ℤ) : ℚ) := by
      exact_mod_cast congrArg (Int.cast : ℤ → ℚ) (Int.toNat_of_nonneg hepz.le)
    have hpos : (0 : ℚ) < ((even_point counts : ℤ) : ℚ) *
        ((counts.length : ℚ) / (total_possible : ℚ)) := by
      have hl : (0 : ℚ) < (counts.length : ℚ) := by
        exact_mod_cast Nat.pos_of_ne_zero h3
      have ht : (0 : ℚ) < (total_possible : ℚ) := by
        exact_mod_cast Nat.pos_of_ne_zero h1
      exact mul_pos (by exact_mod_cast hepz) (div_pos hl ht)
    rw [div_le_one hpos]
    have hb : ∀ x ∈ (List.range (even_point counts).toNat).map
        (fun k : ℕ => coverage_at_k counts (k : ℚ) total_possible),
        x ≤ (counts.length : ℚ) / (total_possible : ℚ) := by
      intro x hx
      obtain ⟨k, _, hk⟩ := List.mem_map.mp hx
      rw [← hk]
      exact coverage_at_k_le counts (k : ℚ) total_possible
    calc ((List.range (even_point counts).toNat).map
          (fun k : ℕ => coverage_at_k counts (k : ℚ) total_possible)).sum
        ≤ ((List.range (even_point counts).toNat).map
          (fun k : ℕ => coverage_at_k counts (k : ℚ) total_possible)).length •
          ((counts.length : ℚ) / (total_possible : ℚ)) :=
          List.sum_le_card_nsmul _ _ hb
      _ = ((even_point counts : ℤ) : ℚ) *
          ((counts.length : ℚ) / (total_possible : ℚ)) := by
          rw [List.length_map, List.length_range, nsmul_eq_mul, hcast]

/-- C6: auc_catk lies in [0,1] for non-empty counts with a universe at
least as large as the observed categories, and equals exactly 1 on the
uniform 4-category map with counts 25 and a universe of 4. -/
theorem C6_auc_catk_range (counts : List ℚ) (total_possible : ℕ)
    (hne : counts ≠ []) (hT : counts.length ≤ total_possible) :
    (0 ≤ auc_catk counts total_possible ∧ auc_catk counts total_possible ≤ 1) ∧
    auc_catk [25, 25, 25, 25] 4 = 1 := by
  refine ⟨⟨auc_catk_nonneg _ _, auc_catk_le_one _ _⟩, ?_⟩
  have hep : even_point [25, 25, 25, 25] = 25 := by norm_num [even_point]
  have hc : ∀ k ∈ List.range 25, coverage_at_k [25, 25, 25, 25] (k : ℚ) 4 = 1 := by
    intro k hk
    rw [List.mem_range] at hk
    have hk25 : (k : ℚ) < 25 := by exact_mod_cast hk
    norm_num [coverage_at_k, List.countP, List.countP.go, hk25]
  have h25 : ((25 : ℤ)).toNat = 25 := rfl
  rw [auc_catk]
  simp only [hep, h25]
  rw [List.map_congr_left hc]
  norm_num [List.cons_ne_nil, List.map_const, List.sum_replicate]

/-- C6 (witness): the bounds instantiated on a concrete one-category
map. -/
theorem C6_witness :
    (0 ≤ auc_catk [1] 1 ∧ auc_catk [1] 1 ≤ 1) ∧ auc_catk [25, 25, 25, 25] 4 = 1 :=
  C6_auc_catk_range [1] 1 (by simp) (by simp)

/-! ## C7 -/

/-- C7: both coverage functions are non-increasing in their threshold:
raising k cannot increase coverage_at_k, and raising q within [0,1]
cannot increase the value returned by coverage_at_q. -/
theorem C7_threshold_monotone (counts : List ℚ) (k1 k2 : ℚ)
    (total_possible : ℕ) (probs : List ℚ) (q1 q2 : ℚ)
    (hk : k1 ≤ k2) (hq0 : 0 ≤ q1) (hq12 : q1 ≤ q2) (hq1 : q2 ≤ 1) :
    coverage_at_k counts k2 total_possible ≤
      coverage_at_k counts k1 total_possible ∧
    ∃ c1 c2, coverage_at_q probs q1 = some c1 ∧
      coverage_at_q probs q2 = some c2 ∧ c2 ≤ c1 := by
  constructor
  · rw [coverage_at_k, coverage_at_k]
    split
    · exact le_refl 0
    · refine div_le_div_of_nonneg_right ?_ (Nat.cast_nonneg _)
      have : counts.countP (fun v => decide (k2 < v)) ≤
          counts.countP (fun v => decide (k1 < v)) := by
        refine List.countP_mono_left ?_
        intro x _ hx
        rw [decide_eq_true_eq] at hx ⊢
        exact lt_of_le_of_lt hk hx
      exact_mod_cast this
  · by_cases hne : probs = []
    · subst hne
      exact ⟨0, 0, rfl, rfl, le_refl 0⟩
    · refine ⟨_, _,
        coverage_at_q_eq_of_nonempty probs q1 hne hq0 (hq12.trans hq1),
        coverage_at_q_eq_of_nonempty probs q2 hne (hq0.trans hq12) hq1, ?_⟩
      refine div_le_div_of_nonneg_right ?_ (Nat.cast_nonneg _)
      have : probs.countP (fun v => decide (q2 ≤ v)) ≤
          probs.countP (fun v => decide (q1 ≤ v)) := by
        refine List.countP_mono_left ?_
        intro x _ hx
        rw [decide_eq_true_eq] at hx ⊢
        exact hq12.trans hx
      exact_mod_cast this

/-- C7 (witness): monotonicity instantiated on concrete maps and
thresholds. -/
theorem C7_witness :
    coverage_at_k [1, 3] 2 2 ≤ coverage_at_k [1, 3] 0 2 ∧
    ∃ c1 c2, coverage_at_q [1/2, 1/2] 0 = some c1 ∧
      coverage_at_q [1/2, 1/2] (1/2) = some c2 ∧ c2 ≤ c1 :=
  C7_threshold_monotone [1, 3] 0 2 2 [1/2, 1/2] 0 (1/2)
    (by norm_num) (by norm_num) (by norm_num) (by norm_num)

/-! ## C8 -/

/-- C8: all degenerate inputs return 0.0 and never raise: a zero category
universe for coverage_at_k and auc_catk, an empty counts map or a
non-positive even point for auc_catk, an empty probs map for
coverage_at_q, and at most one category for deviation_from_uniform. -/
theorem C8_degenerate (counts : List ℚ) (k : ℚ) (total_possible : ℕ)
    (probs : List ℚ) (q : ℚ) (hq0 : 0 ≤ q) (hq1 : q ≤ 1) :
    coverage_at_k counts k 0 = 0 ∧
    auc_catk counts 0 = 0 ∧
    auc_catk [] total_possible = 0 ∧
    (even_point counts ≤ 0 → auc_catk counts total_possible = 0) ∧
    coverage_at_q [] q = some 0 ∧
    (probs.length ≤ 1 → deviation_from_uniform probs = some 0) := by
  refine ⟨?_, ?_, ?_, ?_, rfl, ?_⟩
  · rw [coverage_at_k, if_pos rfl]
  · rw [auc_catk, if_pos rfl]
  · simp [auc_catk]
  · intro h
    simp [auc_catk, h]
  · intro h
    simp [deviation_from_uniform, h]

/-- C8 (witness): the degenerate cases instantiated on concrete inputs. -/
theorem C8_witness :
    coverage_at_k [1] 0 0 = 0 ∧
    auc_catk [1] 0 = 0 ∧
    auc_catk [] 5 = 0 ∧
    (even_point [1] ≤ 0 → auc_catk [1] 5 = 0) ∧
    coverage_at_q [] (1/2) = some 0 ∧
    (([1/2] : List ℚ).length ≤ 1 → deviation_from_uniform [1/2] = some 0) :=
  C8_degenerate [1] 0 5 [1/2] (1/2) (by norm_num) (by norm_num)

/-! ## C10 -/

/-- On a non-empty map, a segment whose right endpoint lies in [0,1] never
fails the assert inside coverage_at_q. -/
lemma segment_area_isSome (probs : List ℚ) (p a b : ℚ) (hne : probs ≠ [])
    (h0 : 0 ≤ b) (h1 : b ≤ 1) :
    ∃ s, segment_area probs p a b = some s := by
  rw [segment_area]
  split
  · exact ⟨0, rfl⟩
  · rw [coverage_at_q_eq_of_nonempty probs b hne h0 h1]
    exact ⟨_, rfl⟩

/-- On a non-empty map, the accumulation loop over a breakpoint list whose
elements all lie in [0,1] never fails. -/
lemma raw_area_isSome (probs : List ℚ) (p : ℚ) (hne : probs ≠ []) :
    ∀ l : List ℚ, (∀ x ∈ l, 0 ≤ x ∧ x ≤ 1) →
      ∃ r, raw_area probs p l = some r := by
  intro l
  induction l with
  | nil => exact fun _ => ⟨0, rfl⟩
  | cons a t ih =>
    intro hall
    cases t with
    | nil => exact ⟨0, rfl⟩
    | cons b rest =>
      obtain ⟨r, hr⟩ := ih (fun x hx => hall x (List.mem_cons_of_mem a hx))
      obtain ⟨s, hs⟩ := segment_area_isSome probs p a b hne
        (hall b (by simp)).1 (hall b (by simp)).2
      refine ⟨s + r, ?_⟩
      simp [raw_area, hs, hr]

/-- Every breakpoint produced for a map with at least 2 categories whose
values lie in [0,1] itself lies in [0,1]. -/
lemma breakpoints_mem_bounds (probs : List ℚ) (h2 : 2 ≤ probs.length)
    (hv : ∀ v ∈ probs, 0 ≤ v ∧ v ≤ 1) :
    ∀ x ∈ breakpoints probs, 0 ≤ x ∧ x ≤ 1 := by
  intro x hx
  have hx' : x ∈ ((0 : ℚ) :: 1 :: (1 / (probs.length : ℚ)) :: probs) :=
    List.mem_dedup.mp ((List.perm_insertionSort _ _).mem_iff.mp hx)
  have hn : (1 : ℚ) ≤ (probs.length : ℚ) := by
    exact_mod_cast Nat.one_le_of_lt h2
  have hnpos : (0 : ℚ) < (probs.length : ℚ) := lt_of_lt_of_le one_pos hn
  rcases List.mem_cons.mp hx' with h | hx' 
  · subst h; norm_num
  rcases List.mem_cons.mp hx' with h | hx' 
  · subst h; norm_num
  rcases List.mem_cons.mp hx' with h | hx' 
  · subst h
    constructor
    · exact le_of_lt (div_pos one_pos hnpos)
    · rw [div_le_one hnpos]
      exact hn
  · exact hv x hx'

/-- C10: for a map with at least 2 categories all of whose values lie in
[0,1], deviation_from_uniform completes normally: every breakpoint it
passes to coverage_at_q is in range, so the assert never fires. -/
theorem C10_no_assert (probs : List ℚ) (h2 : 2 ≤ probs.length)
    (hv : ∀ v ∈ probs, 0 ≤ v ∧ v ≤ 1) :
    ∃ r, deviation_from_uniform probs = some r := by
  have hne : probs ≠ [] := by
    intro h
    rw [h] at h2
    simp at h2
  have hlen : ¬ probs.length ≤ 1 := by omega
  obtain ⟨r, hr⟩ := raw_area_isSome probs (1 / (probs.length : ℚ)) hne
    (breakpoints probs) (breakpoints_mem_bounds probs h2 hv)
  refine ⟨((probs.length : ℚ) ^ 2 / (2 * ((probs.length : ℚ) - 1))) * r, ?_⟩
  rw [deviation_from_uniform, if_neg hne, if_neg hlen]
  show (raw_area probs (1 / (probs.length : ℚ)) (breakpoints probs)).map
      (fun raw => ((probs.length : ℚ) ^ 2 / (2 * ((probs.length : ℚ) - 1))) * raw) =
    some (((probs.length : ℚ) ^ 2 / (2 * ((probs.length : ℚ) - 1))) * r)
  rw [hr]
  rfl

/-- C10 (witness): the two-category map with both values 1/2 evaluates
without failing the assert. -/
theorem C10_witness : ∃ r, deviation_from_uniform [1/2, 1/2] = some r :=
  C10_no_assert [1/2, 1/2] (by norm_num)
    (by intro v hv; fin_cases hv <;> norm_num)
